import Mathlib

/-!
Verification of `count_go_code_lines.py`, a line-counting scanner for Go
source trees. The script classifies each physical line of a `.go` file as
empty, comment or code, tracking a single boolean scanner state
`in_block_comment`, and sums the per-file tallies over a recursive
directory walk.

The embedding models a physical line as a `List Char` and mirrors the
Python string primitives the script uses: `str.strip`, `startswith`,
`endswith`, the substring test `in`, and `split(tok, 1)[1]`.
-/

namespace CountGo

/-- The whitespace characters removed by Python `str.strip()` (ASCII part). -/
def isPySpace (c : Char) : Bool :=
  c = ' ' || c = '\t' || c = '\n' || c = '\r' || c = '\x0b' || c = '\x0c'

/-- Python `s.lstrip()`: drop leading whitespace. -/
def lstrip (l : List Char) : List Char :=
  l.dropWhile isPySpace

/-- Python `s.rstrip()`: drop trailing whitespace. -/
def rstrip (l : List Char) : List Char :=
  (l.reverse.dropWhile isPySpace).reverse

/-- Python `s.strip()`: drop leading and trailing whitespace. -/
def strip (l : List Char) : List Char :=
  rstrip (lstrip l)

/-- Python `s.startswith(pat)` on character lists (first argument is `s`). -/
def begWith : List Char → List Char → Bool
  | _, [] => true
  | [], _ :: _ => false
  | c :: s, p :: ps => c == p && begWith s ps

/-- Python `s.endswith(pat)` on character lists. -/
def endWith (s pat : List Char) : Bool :=
  begWith s.reverse pat.reverse

/-- Python `pat in s`: substring test. -/
def hasSub (s pat : List Char) : Bool :=
  if begWith s pat then true
  else
    match s with
    | [] => false
    | _ :: rest => hasSub rest pat

/-- Python `s.split(pat, 1)[1]`: everything after the first occurrence of
`pat` in `s` (empty when `pat` does not occur). -/
def afterFirst (s pat : List Char) : List Char :=
  if begWith s pat then s.drop pat.length
  else
    match s with
    | [] => []
    | _ :: rest => afterFirst rest pat

/-- The part of `s` strictly before the first occurrence of `pat`. -/
def beforeFirst (s pat : List Char) : List Char :=
  if begWith s pat then []
  else
    match s with
    | [] => []
    | c :: rest => c :: beforeFirst rest pat

/-- The line-comment token `//` of the scanned language. -/
def slashSlash : List Char := ['/', '/']

/-- The block-comment opening token. -/
def openTok : List Char := ['/', '*']

/-- The block-comment closing token. -/
def closeTok : List Char := ['*', '/']

/-- Which counters one line increments: `analyze_go_file` bumps `comment`,
`empty` and `code` according to these flags (and `total` on every line). -/
structure LineDelta where
  dComment : Bool
  dEmpty : Bool
  dCode : Bool
deriving DecidableEq, Repr

/-- One iteration of the `for line in f` loop of `analyze_go_file`
(lines 12 to 44 of the script): given the `in_block_comment` state on entry
and the raw line, return the counter increments and the state on exit. -/
def classifyLine (inBlockComment : Bool) (line : List Char) : LineDelta × Bool :=
  if strip line = [] then
    (⟨false, true, false⟩, inBlockComment)
  else if inBlockComment then
    if hasSub (strip line) closeTok then
      if endWith (strip line) closeTok then
        (⟨true, false, false⟩, false)
      else if strip (afterFirst (strip line) closeTok) = [] then
        (⟨true, false, false⟩, false)
      else if begWith (strip (afterFirst (strip line) closeTok)) slashSlash then
        (⟨true, false, false⟩, false)
      else
        (⟨true, false, true⟩, false)
    else
      (⟨true, false, false⟩, true)
  else if begWith (strip line) slashSlash then
    (⟨true, false, false⟩, inBlockComment)
  else if hasSub (strip line) openTok then
    if hasSub (strip line) closeTok then
      (⟨true, false, false⟩, inBlockComment)
    else
      (⟨true, false, false⟩, true)
  else
    (⟨false, false, true⟩, inBlockComment)

/-- The four counters returned by `analyze_go_file` and `analyze_go_folder`. -/
structure Counts where
  total : Nat
  comment : Nat
  empty : Nat
  code : Nat
deriving DecidableEq, Repr

def zeroCounts : Counts := ⟨0, 0, 0, 0⟩

def b2n (b : Bool) : Nat := if b then 1 else 0

/-- Apply the increments of one line to the accumulated counters
(`total += 1` happens on every line). -/
def addDelta (c : Counts) (d : LineDelta) : Counts :=
  ⟨c.total + 1, c.comment + b2n d.dComment, c.empty + b2n d.dEmpty,
    c.code + b2n d.dCode⟩

/-- The scanning loop of `analyze_go_file`: fold `classifyLine` over the
lines, threading the counters and the `in_block_comment` state. -/
def scanFile : Bool → Counts → List (List Char) → Counts × Bool
  | st, c, [] => (c, st)
  | st, c, l :: ls =>
    scanFile (classifyLine st l).2 (addDelta c (classifyLine st l).1) ls

/-- `analyze_go_file`, with the file given as its list of physical lines:
counters start at zero and `in_block_comment` starts `False`. -/
def analyze_go_file (lines : List (List Char)) : Counts :=
  (scanFile false zeroCounts lines).1

/-- Componentwise sum of two tallies (lines 59 to 62 of the script). -/
def addCounts (a b : Counts) : Counts :=
  ⟨a.total + b.total, a.comment + b.comment, a.empty + b.empty, a.code + b.code⟩

/-- The `.go` extension filter of `analyze_go_folder`. -/
def goExt : List Char := ['.', 'g', 'o']

/-- The body of the walk loop: a file named `f.1` with content `f.2`
contributes its tally when its name ends with `.go`. -/
def folderStep (acc : Counts) (f : List Char × List (List Char)) : Counts :=
  if endWith f.1 goExt then addCounts acc (analyze_go_file f.2) else acc

/-- `analyze_go_folder`, with the directory walk given as the list of
(file name, file lines) pairs it enumerates. -/
def analyze_go_folder (files : List (List Char × List (List Char))) : Counts :=
  files.foldl folderStep zeroCounts

/-- Outcome of the `__main__` block: either the usage message (no scan), or
the report of the four counts for the folder named by the argument. -/
inductive MainResult where
  | usage : MainResult
  | report : Counts → MainResult
deriving DecidableEq

/-- The `__main__` block: `argv` is the full `sys.argv` (script name
included); `files` is the walk of the folder named by `argv[1]`. When
`len(sys.argv) != 2` only the usage line is printed and no scan happens. -/
def main_entry (argv : List (List Char))
    (files : List (List Char × List (List Char))) : MainResult :=
  if argv.length ≠ 2 then .usage
  else .report (analyze_go_folder files)

/-! ### Lemmas about the Python string primitives -/

lemma dropWhile_idem (p : Char → Bool) (l : List Char) :
    (l.dropWhile p).dropWhile p = l.dropWhile p := by
  induction l with
  | nil => rfl
  | cons c t ih =>
    by_cases h : p c
    · simp [List.dropWhile_cons, h, ih]
    · simp [List.dropWhile_cons, h]

lemma lstrip_idem (l : List Char) : lstrip (lstrip l) = lstrip l :=
  dropWhile_idem isPySpace l

lemma rstrip_idem (l : List Char) : rstrip (rstrip l) = rstrip l := by
  simp [rstrip, List.reverse_reverse, dropWhile_idem]

lemma rstrip_isPre (l : List Char) : rstrip l <+: l := by
  have h := (List.reverse_prefix).mpr (List.dropWhile_suffix (l := l.reverse) isPySpace)
  rwa [List.reverse_reverse] at h

lemma lstrip_rstrip (m : List Char) (h : lstrip m = m) :
    lstrip (rstrip m) = rstrip m := by
  rcases hr : rstrip m with _ | ⟨c, t⟩
  · rfl
  · obtain ⟨s, hs⟩ := rstrip_isPre m
    rw [hr] at hs
    by_cases hc : isPySpace c
    · exfalso
      rw [← hs] at h
      have hlen : (lstrip ((c :: t) ++ s)).length ≤ (t ++ s).length := by
        simpa [lstrip, List.dropWhile_cons, hc] using
          (List.dropWhile_suffix (l := t ++ s) isPySpace).length_le
      rw [h] at hlen
      simp at hlen
    · simp [lstrip, List.dropWhile_cons_of_neg hc]

lemma strip_idem (l : List Char) : strip (strip l) = strip l := by
  show rstrip (lstrip (rstrip (lstrip l))) = rstrip (lstrip l)
  rw [lstrip_rstrip (lstrip l) (lstrip_idem l), rstrip_idem]

lemma begWith_nil_cons (c : Char) (p : List Char) :
    begWith [] (c :: p) = false := rfl

lemma hasSub_nil_cons (c : Char) (p : List Char) :
    hasSub [] (c :: p) = false := rfl

lemma ne_nil_of_hasSub {s : List Char} {c : Char} {p : List Char}
    (h : hasSub s (c :: p) = true) : s ≠ [] := by
  intro hs
  rw [hs, hasSub_nil_cons] at h
  exact Bool.false_ne_true h

lemma ne_nil_of_begWith {s : List Char} {c : Char} {p : List Char}
    (h : begWith s (c :: p) = true) : s ≠ [] := by
  intro hs
  rw [hs, begWith_nil_cons] at h
  exact Bool.false_ne_true h

/-! ### Per-line and scan-loop invariants -/

lemma b2n_le_one (b : Bool) : b2n b ≤ 1 := by
  cases b <;> simp [b2n]

/-- Each line increments the three classification counters exactly once in
total, except that a line closing a block comment with trailing code
increments both `comment` and `code`. -/
lemma classify_delta_sum (st : Bool) (line : List Char) :
    b2n (classifyLine st line).1.dComment + b2n (classifyLine st line).1.dEmpty
      + b2n (classifyLine st line).1.dCode
      = 1 + b2n ((classifyLine st line).1.dComment && (classifyLine st line).1.dCode) := by
  unfold classifyLine
  split_ifs <;> rfl

/-- A stripped line classifies the same as the raw line. -/
lemma classifyLine_strip (st : Bool) (line : List Char) :
    classifyLine st line = classifyLine st (strip line) := by
  unfold classifyLine
  rw [strip_idem]

/-- Number of double-counted lines (comment and code at once) in a scan
started in state `st`. -/
def nDoubles : Bool → List (List Char) → Nat
  | _, [] => 0
  | st, l :: ls =>
    b2n ((classifyLine st l).1.dComment && (classifyLine st l).1.dCode)
      + nDoubles (classifyLine st l).2 ls

lemma scanFile_total (lines : List (List Char)) :
    ∀ st c, ((scanFile st c lines).1).total = c.total + lines.length := by
  induction lines with
  | nil => intro st c; rfl
  | cons l ls ih =>
    intro st c
    simp only [scanFile]
    rw [ih]
    simp [addDelta]
    omega

lemma scanFile_comment_le (lines : List (List Char)) :
    ∀ st c, ((scanFile st c lines).1).comment ≤ c.comment + lines.length := by
  induction lines with
  | nil => intro st c; simp [scanFile]
  | cons l ls ih =>
    intro st c
    simp only [scanFile]
    refine le_trans (ih _ _) ?_
    have h1 := b2n_le_one (classifyLine st l).1.dComment
    simp [addDelta]
    omega

lemma scanFile_empty_le (lines : List (List Char)) :
    ∀ st c, ((scanFile st c lines).1).empty ≤ c.empty + lines.length := by
  induction lines with
  | nil => intro st c; simp [scanFile]
  | cons l ls ih =>
    intro st c
    simp only [scanFile]
    refine le_trans (ih _ _) ?_
    have h1 := b2n_le_one (classifyLine st l).1.dEmpty
    simp [addDelta]
    omega

lemma scanFile_code_le (lines : List (List Char)) :
    ∀ st c, ((scanFile st c lines).1).code ≤ c.code + lines.length := by
  induction lines with
  | nil => intro st c; simp [scanFile]
  | cons l ls ih =>
    intro st c
    simp only [scanFile]
    refine le_trans (ih _ _) ?_
    have h1 := b2n_le_one (classifyLine st l).1.dCode
    simp [addDelta]
    omega

/-- Exact bookkeeping: the three classification counters sum to the line
count plus one extra for every double-counted line. -/
lemma scanFile_sum (lines : List (List Char)) :
    ∀ st c, ((scanFile st c lines).1).comment + ((scanFile st c lines).1).empty
        + ((scanFile st c lines).1).code
      = c.comment + c.empty + c.code + lines.length + nDoubles st lines := by
  induction lines with
  | nil => intro st c; simp [scanFile, nDoubles]
  | cons l ls ih =>
    intro st c
    simp only [scanFile, nDoubles]
    rw [ih]
    have h := classify_delta_sum st l
    simp only [addDelta, List.length_cons]
    omega

/-! ### Folder aggregation lemmas -/

lemma addCounts_zero (c : Counts) : addCounts c zeroCounts = c := by
  cases c
  simp [addCounts, zeroCounts]

lemma zero_addCounts (c : Counts) : addCounts zeroCounts c = c := by
  cases c
  simp [addCounts, zeroCounts]

lemma addCounts_assoc (a b c : Counts) :
    addCounts (addCounts a b) c = addCounts a (addCounts b c) := by
  simp [addCounts, Nat.add_assoc]

lemma addCounts_left_comm (a b c : Counts) :
    addCounts a (addCounts b c) = addCounts b (addCounts a c) := by
  simp [addCounts]
  omega

lemma folderStep_eq (acc : Counts) (f : List Char × List (List Char)) :
    folderStep acc f = addCounts acc (folderStep zeroCounts f) := by
  unfold folderStep
  split_ifs with h
  · rw [zero_addCounts]
  · rw [addCounts_zero]

lemma foldl_folderStep (files : List (List Char × List (List Char))) :
    ∀ acc, files.foldl folderStep acc = addCounts acc (analyze_go_folder files) := by
  induction files with
  | nil =>
    intro acc
    simp [analyze_go_folder, List.foldl, addCounts_zero]
  | cons f fs ih =>
    intro acc
    show fs.foldl folderStep (folderStep acc f) = _
    rw [ih (folderStep acc f), folderStep_eq acc f, addCounts_assoc]
    have hr : analyze_go_folder (f :: fs) = fs.foldl folderStep (folderStep zeroCounts f) := rfl
    rw [hr, ih (folderStep zeroCounts f)]

lemma analyze_go_folder_cons (f : List Char × List (List Char))
    (files : List (List Char × List (List Char))) :
    analyze_go_folder (f :: files)
      = addCounts (folderStep zeroCounts f) (analyze_go_folder files) := by
  show files.foldl folderStep (folderStep zeroCounts f) = _
  exact foldl_folderStep files _

/-! ### Claims -/

/-- C1 counterexample: on the 3-line file `["/* a", "b */ code", "real code"]`
the scanner does NOT produce the claimed tally `{total 3, comment 2, empty 0,
code 1}` — line 2 is double-counted, giving `code = 2`. -/
theorem c1_counterexample :
    analyze_go_file ["/* a".toList, "b */ code".toList, "real code".toList]
      ≠ ⟨3, 2, 0, 1⟩ := by
  decide

/-- C1 (amended): a line that closes a block comment and carries trailing
non-comment content is recorded as Comment AND as Code (both counters are
incremented), and the 3-line example file tallies
`{total 3, comment 2, empty 0, code 2}`. -/
theorem c1_block_close_trailing_code (line : List Char)
    (hclose : hasSub (strip line) closeTok = true)
    (hend : endWith (strip line) closeTok = false)
    (hrem : strip (afterFirst (strip line) closeTok) ≠ [])
    (hcode : begWith (strip (afterFirst (strip line) closeTok)) slashSlash = false) :
    classifyLine true line = (⟨true, false, true⟩, false) ∧
    analyze_go_file ["/* a".toList, "b */ code".toList, "real code".toList]
      = ⟨3, 2, 0, 2⟩ := by
  constructor
  · have hne : strip line ≠ [] := ne_nil_of_hasSub hclose
    simp [classifyLine, hne, hclose, hend, hrem, hcode]
  · decide

/-- C1 witness: the hypotheses and conclusion at the concrete line
`"b */ code"` entered in block-comment state. -/
theorem c1_block_close_trailing_code_witness :
    hasSub (strip "b */ code".toList) closeTok = true ∧
    endWith (strip "b */ code".toList) closeTok = false ∧
    strip (afterFirst (strip "b */ code".toList) closeTok) ≠ [] ∧
    begWith (strip (afterFirst (strip "b */ code".toList) closeTok)) slashSlash = false ∧
    (classifyLine true "b */ code".toList = (⟨true, false, true⟩, false) ∧
      analyze_go_file ["/* a".toList, "b */ code".toList, "real code".toList]
        = ⟨3, 2, 0, 2⟩) :=
  ⟨by decide, by decide, by decide, by decide,
    c1_block_close_trailing_code _ (by decide) (by decide) (by decide) (by decide)⟩

/-- C2 counterexample: on the 3-line double-count file the invariant
`total = comment + empty + code` fails (3 versus 4). -/
theorem c2_counterexample :
    (analyze_go_file ["/* a".toList, "b */ code".toList, "real code".toList]).total
      ≠ (analyze_go_file ["/* a".toList, "b */ code".toList, "real code".toList]).comment
        + (analyze_go_file ["/* a".toList, "b */ code".toList, "real code".toList]).empty
        + (analyze_go_file ["/* a".toList, "b */ code".toList, "real code".toList]).code := by
  decide

/-- C2 (amended): for every file scan `total ≤ comment + empty + code`, and
equality holds whenever no line is double-counted (no block-comment close
followed by trailing code). -/
theorem c2_total_le_sum (lines : List (List Char)) :
    (analyze_go_file lines).total ≤ (analyze_go_file lines).comment
      + (analyze_go_file lines).empty + (analyze_go_file lines).code ∧
    (nDoubles false lines = 0 →
      (analyze_go_file lines).total = (analyze_go_file lines).comment
        + (analyze_go_file lines).empty + (analyze_go_file lines).code) := by
  have h1 := scanFile_total lines false zeroCounts
  have h2 := scanFile_sum lines false zeroCounts
  simp only [zeroCounts] at h1 h2
  unfold analyze_go_file zeroCounts
  constructor
  · omega
  · intro h
    omega

/-- C2 witness: a concrete double-count-free file where the amended
invariant gives exact equality. -/
theorem c2_total_le_sum_witness :
    nDoubles false ["x".toList] = 0 ∧
    (analyze_go_file ["x".toList]).total = (analyze_go_file ["x".toList]).comment
      + (analyze_go_file ["x".toList]).empty + (analyze_go_file ["x".toList]).code :=
  ⟨by decide, (c2_total_le_sum ["x".toList]).2 (by decide)⟩

/-- C3 counterexample: a whitespace-only line met while inside a block
comment is counted as Empty, not as Comment — the empty-line check runs
before the block-comment check. -/
theorem c3_counterexample :
    (classifyLine true " ".toList).1.dComment = false ∧
    (classifyLine true " ".toList).1.dEmpty = true := by
  decide

/-- C3 (amended): a line whose trimmed content is empty is always counted
as Empty, whatever the scanner state, and `inBlockComment` is unchanged
(in particular it stays true mid-comment). -/
theorem c3_empty_line (st : Bool) (line : List Char) (h : strip line = []) :
    classifyLine st line = (⟨false, true, false⟩, st) := by
  unfold classifyLine
  rw [if_pos h]

/-- C3 witness: the blank line `" "` entered in block-comment state. -/
theorem c3_empty_line_witness :
    strip " ".toList = [] ∧
    classifyLine true " ".toList = (⟨false, true, false⟩, true) :=
  ⟨by decide, c3_empty_line true " ".toList (by decide)⟩

/-- C4 counterexample: on `"*/ /*"` (state false on entry) no close token
appears after the open token, so the claim requires `inBlockComment` to
become true; the scanner only tests membership of `*/` anywhere in the
line and leaves the state false. -/
theorem c4_counterexample :
    begWith (strip "*/ /*".toList) slashSlash = false ∧
    hasSub (strip "*/ /*".toList) openTok = true ∧
    hasSub (afterFirst (strip "*/ /*".toList) openTok) closeTok = false ∧
    (classifyLine false "*/ /*".toList).2 = false := by
  decide

/-- C4 (amended): with `inBlockComment` false, a line not starting with the
line-comment prefix that contains the block-open token is classified
Comment, and the resulting state is true exactly when no block-close token
appears ANYWHERE in the trimmed line (not merely after the open token). -/
theorem c4_block_open (line : List Char)
    (hll : begWith (strip line) slashSlash = false)
    (hop : hasSub (strip line) openTok = true) :
    (classifyLine false line).1 = ⟨true, false, false⟩ ∧
    (classifyLine false line).2 = !(hasSub (strip line) closeTok) := by
  have hne : strip line ≠ [] := ne_nil_of_hasSub hop
  cases hc : hasSub (strip line) closeTok <;>
    simp [classifyLine, hne, hll, hop, hc]

/-- C4 witness: the opening line `"/* a"`, which leaves the scanner inside
a block comment. -/
theorem c4_block_open_witness :
    begWith (strip "/* a".toList) slashSlash = false ∧
    hasSub (strip "/* a".toList) openTok = true ∧
    ((classifyLine false "/* a".toList).1 = ⟨true, false, false⟩ ∧
      (classifyLine false "/* a".toList).2 = !(hasSub (strip "/* a".toList) closeTok)) :=
  ⟨by decide, by decide, c4_block_open _ (by decide) (by decide)⟩

/-- C5: with `inBlockComment` false, a line carrying code before a block
open token (nonempty content before the first `/*`, line not a `//`
comment) is classified Comment and contributes nothing to the code
counter. -/
theorem c5_code_before_open (line : List Char)
    (_hpre : beforeFirst (strip line) openTok ≠ [])
    (hll : begWith (strip line) slashSlash = false)
    (hop : hasSub (strip line) openTok = true) :
    (classifyLine false line).1 = ⟨true, false, false⟩ := by
  have hne : strip line ≠ [] := ne_nil_of_hasSub hop
  cases hc : hasSub (strip line) closeTok <;>
    simp [classifyLine, hne, hll, hop, hc]

/-- C5 witness: the mixed line `"code(); /* comment"`. -/
theorem c5_code_before_open_witness :
    beforeFirst (strip "code(); /* comment".toList) openTok ≠ [] ∧
    begWith (strip "code(); /* comment".toList) slashSlash = false ∧
    hasSub (strip "code(); /* comment".toList) openTok = true ∧
    (classifyLine false "code(); /* comment".toList).1 = ⟨true, false, false⟩ :=
  ⟨by decide, by decide, by decide,
    c5_code_before_open _ (by decide) (by decide) (by decide)⟩

/-- C6: classification is insensitive to leading/trailing whitespace — a
line classifies exactly like its trimmed form in every state — and with
`inBlockComment` false a trimmed line starting with the line-comment
prefix is classified Comment. -/
theorem c6_trim_insensitive :
    (∀ st line, classifyLine st line = classifyLine st (strip line)) ∧
    (∀ line, begWith (strip line) slashSlash = true →
      (classifyLine false line).1 = ⟨true, false, false⟩) := by
  constructor
  · exact classifyLine_strip
  · intro line h
    have hne : strip line ≠ [] := ne_nil_of_begWith h
    simp [classifyLine, hne, h]

/-- C6 witness: the indented line `"  x "` and the line comment `" // a"`. -/
theorem c6_trim_insensitive_witness :
    classifyLine true "  x ".toList = classifyLine true (strip "  x ".toList) ∧
    (begWith (strip " // a".toList) slashSlash = true ∧
      (classifyLine false " // a".toList).1 = ⟨true, false, false⟩) :=
  ⟨c6_trim_insensitive.1 true "  x ".toList,
    by decide, c6_trim_insensitive.2 " // a".toList (by decide)⟩

/-- C7: the `__main__` block prints the usage message exactly when the
number of user arguments differs from one (then no scan result is
produced, independently of the filesystem), and with exactly one argument
it reports the folder tally. -/
theorem c7_cli_args (prog : List Char) (args : List (List Char))
    (files : List (List Char × List (List Char))) :
    (main_entry (prog :: args) files = .usage ↔ args.length ≠ 1) ∧
    (args.length ≠ 1 →
      ∀ files2, main_entry (prog :: args) files = main_entry (prog :: args) files2) ∧
    (∀ arg, args = [arg] →
      main_entry (prog :: args) files = .report (analyze_go_folder files)) := by
  refine ⟨?_, ?_, ?_⟩
  · by_cases h : args.length = 1 <;> simp [main_entry, h]
  · intro h files2
    simp [main_entry, h]
  · rintro arg rfl
    simp [main_entry]

/-- C7 witness: zero user arguments give the usage result; the single
argument `"dir"` gives the report. -/
theorem c7_cli_args_witness :
    (main_entry ["prog".toList] [] = .usage ↔ ([] : List (List Char)).length ≠ 1) ∧
    main_entry ["prog".toList, "dir".toList] [] = .report (analyze_go_folder []) :=
  ⟨(c7_cli_args "prog".toList [] []).1,
    (c7_cli_args "prog".toList ["dir".toList] []).2.2 "dir".toList rfl⟩

/-- C8: a file contributes its tally to the folder sum exactly when its
name ends with `.go`; the suffix match is exact and case-sensitive
(`main.go` participates, `main.GO` and `main.txt` do not). -/
theorem c8_go_filter (name : List Char) (content : List (List Char))
    (rest : List (List Char × List (List Char))) :
    analyze_go_folder ((name, content) :: rest)
      = (if endWith name goExt = true then
          addCounts (analyze_go_file content) (analyze_go_folder rest)
        else analyze_go_folder rest) ∧
    endWith "main.go".toList goExt = true ∧
    endWith "main.GO".toList goExt = false ∧
    endWith "main.txt".toList goExt = false := by
  refine ⟨?_, by decide, by decide, by decide⟩
  rw [analyze_go_folder_cons]
  by_cases h : endWith name goExt = true
  · simp [folderStep, h, zero_addCounts]
  · simp [folderStep, h, zero_addCounts]

/-- C8 witness: instantiation at a concrete `.go` file over an empty rest. -/
theorem c8_go_filter_witness :
    analyze_go_folder [("main.go".toList, ["x".toList])]
      = (if endWith "main.go".toList goExt = true then
          addCounts (analyze_go_file ["x".toList]) (analyze_go_folder [])
        else analyze_go_folder []) :=
  (c8_go_filter "main.go".toList ["x".toList] []).1

/-- C9: the folder tally is a commutative sum of the per-file tallies —
permuting the file list leaves the four totals unchanged. -/
theorem c9_perm (l1 l2 : List (List Char × List (List Char))) (h : l1.Perm l2) :
    analyze_go_folder l1 = analyze_go_folder l2 := by
  induction h with
  | nil => rfl
  | cons x _ ih => rw [analyze_go_folder_cons, analyze_go_folder_cons, ih]
  | swap x y l =>
    rw [analyze_go_folder_cons, analyze_go_folder_cons, analyze_go_folder_cons,
      analyze_go_folder_cons, addCounts_left_comm]
  | trans _ _ ih1 ih2 => rw [ih1, ih2]

/-- C9 witness: swapping two concrete files leaves the folder tally
unchanged. -/
theorem c9_perm_witness :
    analyze_go_folder [("a.go".toList, ["x".toList]), ("b.go".toList, ["// y".toList])]
      = analyze_go_folder [("b.go".toList, ["// y".toList]), ("a.go".toList, ["x".toList])] :=
  c9_perm _ _ (List.Perm.swap _ _ [])

/-- C10: each counter is bounded by the line count, every line increments
at least one of the three classification counters, the three counters sum
to at least `total`, and the inequality is strict exactly when some line
was double-counted as both comment and code. -/
theorem c10_bounds (lines : List (List Char)) :
    (analyze_go_file lines).comment ≤ (analyze_go_file lines).total ∧
    (analyze_go_file lines).empty ≤ (analyze_go_file lines).total ∧
    (analyze_go_file lines).code ≤ (analyze_go_file lines).total ∧
    (∀ st line, 1 ≤ b2n (classifyLine st line).1.dComment
      + b2n (classifyLine st line).1.dEmpty + b2n (classifyLine st line).1.dCode) ∧
    (analyze_go_file lines).total ≤ (analyze_go_file lines).comment
      + (analyze_go_file lines).empty + (analyze_go_file lines).code ∧
    ((analyze_go_file lines).total < (analyze_go_file lines).comment
        + (analyze_go_file lines).empty + (analyze_go_file lines).code
      ↔ 0 < nDoubles false lines) := by
  have h1 := scanFile_total lines false zeroCounts
  have h2 := scanFile_sum lines false zeroCounts
  have h3 := scanFile_comment_le lines false zeroCounts
  have h4 := scanFile_empty_le lines false zeroCounts
  have h5 := scanFile_code_le lines false zeroCounts
  simp only [zeroCounts] at h1 h2 h3 h4 h5
  unfold analyze_go_file zeroCounts
  refine ⟨by omega, by omega, by omega, ?_, by omega, by omega⟩
  intro st line
  have h := classify_delta_sum st line
  omega

/-- C10 witness: instantiation at the 3-line double-count file, where the
strict inequality side of the equivalence is realised. -/
theorem c10_bounds_witness :
    (analyze_go_file ["/* a".toList, "b */ code".toList, "real code".toList]).total
      < (analyze_go_file ["/* a".toList, "b */ code".toList, "real code".toList]).comment
        + (analyze_go_file ["/* a".toList, "b */ code".toList, "real code".toList]).empty
        + (analyze_go_file ["/* a".toList, "b */ code".toList, "real code".toList]).code :=
  (c10_bounds ["/* a".toList, "b */ code".toList, "real code".toList]).2.2.2.2.2.mpr
    (by decide)

end CountGo
